import Mathlib

/-!
Verification of the hex-grid rendering and invalidation engine of the
War-Of-Kingdom client (librose/display.hpp).

The development shallowly embeds the data model and the operations of the
display class: hex locations, the z-order comparator, the drawing buffer and
its ordering key, the invalidation tracker, the viewport controller
(scroll/zoom), the coordinate mapper and visible-region calculator, and the
minimap cache.  Machine integers are modelled as Int (C++ int); where the
repository only declares an operation in the header and its body is not part
of the sources, the definition is modelled from the specification and says so
in its doc comment.
-/

/-- Offset hex-grid coordinate, translated from struct map_location: an
(x, y) pair of C++ ints compared componentwise. -/
structure map_location where
  x : Int
  y : Int
  deriving DecidableEq

/-- Integer key used by display::ordered_draw (display.hpp lines 919-923):
(a.y*2 + a.x%2) * 1024 + a.x, with the C++ truncated remainder. -/
def ordered_draw_key (a : map_location) : Int :=
  (a.y * 2 + Int.tmod a.x 2) * 1024 + a.x

/-- Translated from display::ordered_draw (display.hpp lines 919-923): the
strict weak ordering used to sort a set of hexes for z-order drawing. -/
def ordered_draw (a b : map_location) : Bool :=
  decide (ordered_draw_key a < ordered_draw_key b)

/-- Visual row of a hex as the claim words it: 2*y + x%2 (odd columns sit half
a hex lower, so they form the next visual row). -/
def visual_row (a : map_location) : Int :=
  2 * a.y + Int.tmod a.x 2

/-- Lexicographic order on (visual row, column), the order the claim compares
ordered_draw against. -/
def visual_lex_lt (a b : map_location) : Bool :=
  decide (visual_row a < visual_row b ∨ (visual_row a = visual_row b ∧ a.x < b.x))

theorem tmod_two_of_nonneg (x : Int) (hx : 0 ≤ x) : Int.tmod x 2 = x % 2 := by
  rw [Int.tmod_eq_emod hx (by norm_num)]

/-- C10: display::ordered_draw compares locations by the integer key
(y*2 + x%2)*1024 + x; on the domain 0 <= x < 1024, 0 <= y it agrees with the
lexicographic order on (visual row, column) and is a strict total order
(exactly one direction holds for distinct locations), but for columns
x >= 1024 it can disagree with the visual-row-first order, as at (1,0) versus
(1500,0), and distinct locations such as (2048,0) and (0,1) receive equal keys
so neither precedes the other. -/
theorem ordered_draw_characterisation :
    (∀ a b : map_location,
      0 ≤ a.x → a.x < 1024 → 0 ≤ a.y → 0 ≤ b.x → b.x < 1024 → 0 ≤ b.y →
        (ordered_draw a b = visual_lex_lt a b ∧
          (a ≠ b → (ordered_draw a b = true ↔ ordered_draw b a = false)))) ∧
    ordered_draw ⟨1, 0⟩ ⟨1500, 0⟩ = true ∧
    visual_lex_lt ⟨1500, 0⟩ ⟨1, 0⟩ = true ∧
    ordered_draw_key ⟨2048, 0⟩ = ordered_draw_key ⟨0, 1⟩ ∧
    ordered_draw ⟨2048, 0⟩ ⟨0, 1⟩ = false ∧
    ordered_draw ⟨0, 1⟩ ⟨2048, 0⟩ = false := by
  refine ⟨?_, by decide, by decide, by decide, by decide, by decide⟩
  rintro ⟨ax, ay⟩ ⟨bx, by'⟩ hax0 hax1 hay0 hbx0 hbx1 hby0
  simp only [ordered_draw, visual_lex_lt, ordered_draw_key, visual_row] at *
  simp only [tmod_two_of_nonneg ax hax0, tmod_two_of_nonneg bx hbx0]
  have hma : ax % 2 = 0 ∨ ax % 2 = 1 := by omega
  have hmb : bx % 2 = 0 ∨ bx % 2 = 1 := by omega
  constructor
  · rw [decide_eq_decide]
    rcases hma with hma | hma <;> rcases hmb with hmb | hmb <;>
      simp only [hma, hmb] <;> omega
  · intro hne
    have hxy : ax ≠ bx ∨ ay ≠ by' := by
      by_contra hc
      push_neg at hc
      exact hne (by rw [hc.1, hc.2])
    simp only [decide_eq_true_eq, decide_eq_false_iff_not, not_lt]
    rcases hma with hma | hma <;> rcases hmb with hmb | hmb <;>
      simp only [hma, hmb] <;> rcases hxy with h | h <;> omega

/-- Witness for C10: the characterisation applied at the concrete locations
(0,0) and (1,0). -/
theorem ordered_draw_characterisation_witness :
    ordered_draw ⟨0, 0⟩ ⟨1, 0⟩ = visual_lex_lt ⟨0, 0⟩ ⟨1, 0⟩ :=
  (ordered_draw_characterisation.1 ⟨0, 0⟩ ⟨1, 0⟩ (by decide) (by decide)
    (by decide) (by decide) (by decide) (by decide)).1

/-- Minimap cache state: the cached thumbnail surface (minimap_, none when
dropped), the redraw flag (redrawMinimap_), and an instrumentation counter of
how many times the thumbnail has been recomputed (builds_), used to state
that an operation performs no recomputation. -/
structure tminimap where
  minimap_ : Option Nat
  redrawMinimap_ : Bool
  builds_ : Nat
  deriving DecidableEq

/-- Translated from display::recalculate_minimap (display.hpp line 508):
minimap_ = NULL; redrawMinimap_ = true; -- and nothing else. -/
def recalculate_minimap (s : tminimap) : tminimap :=
  { s with minimap_ := none, redrawMinimap_ := true }

/-- Modelled from the spec: the bodies of display::minimap_surface and
display::draw_minimap are not part of the sources; per the spec, get(w, h)
rebuilds the thumbnail from current map state if dirty (cache dropped),
caches it and clears the redraw flag, while a non-dirty cache is returned
as-is without recomputation.  The current-map-state renderer is the render
argument. -/
def draw_minimap (render : Int → Int → Nat) (s : tminimap) (w h : Int) :
    tminimap × Nat :=
  match s.minimap_ with
  | some surf => (s, surf)
  | none => (⟨some (render w h), false, s.builds_ + 1⟩, render w h)

/-- C9: recalculate_minimap only drops the cached surface and sets the redraw
flag, performing no recomputation; the next read rebuilds the thumbnail from
current map state and caches it, and a subsequent request with identical
width and height against the now non-dirty cache returns the cached surface
without rebuilding it. -/
theorem recalculate_minimap_lazy :
    ∀ (render : Int → Int → Nat) (s : tminimap) (w h : Int),
      recalculate_minimap s = ⟨none, true, s.builds_⟩ ∧
      (draw_minimap render (recalculate_minimap s) w h).2 = render w h ∧
      (draw_minimap render (recalculate_minimap s) w h).1 =
        ⟨some (render w h), false, s.builds_ + 1⟩ ∧
      draw_minimap render (draw_minimap render (recalculate_minimap s) w h).1 w h =
        ((draw_minimap render (recalculate_minimap s) w h).1,
          (draw_minimap render (recalculate_minimap s) w h).2) := by
  intro render s w h
  refine ⟨rfl, rfl, rfl, rfl⟩

/-- Dirty-region tracker state: the everything-dirty flag (invalidateAll_)
and the set of individually invalidated hexes, kept as a duplicate-free list
(invalidated_). -/
structure tdirty where
  invalidateAll_ : Bool
  invalidated_ : List map_location
  deriving DecidableEq

/-- A hex is dirty when the everything-dirty flag is set or the hex is in the
individually invalidated set. -/
def dirty_covers (s : tdirty) (loc : map_location) : Prop :=
  s.invalidateAll_ = true ∨ loc ∈ s.invalidated_

/-- Modelled from the spec: the body of display::invalidate(loc) is not part
of the sources; per the spec it adds loc to the dirty set unless everything
is already invalidated, and returns whether this added new work. -/
def invalidate (s : tdirty) (loc : map_location) : tdirty × Bool :=
  if s.invalidateAll_ then (s, false)
  else if loc ∈ s.invalidated_ then (s, false)
  else ({ s with invalidated_ := loc :: s.invalidated_ }, true)

/-- Modelled from the spec: the body of display::invalidate_all is not part
of the sources; per the spec it sets the everything-dirty flag, making
subsequent individual invalidations no-ops until cleared. -/
def invalidate_all (s : tdirty) : tdirty :=
  { s with invalidateAll_ := true }

/-- Modelled from the spec: display::invalidate on a whole set of locations,
folding the single-location invalidate and or-ing the added-new-work flags. -/
def invalidate_locs (s : tdirty) : List map_location → tdirty × Bool
  | [] => (s, false)
  | l :: rest =>
    let r := invalidate s l
    let r2 := invalidate_locs r.1 rest
    (r2.1, r.2 || r2.2)

/-- One recorded call into the invalidation tracker between two clears. -/
inductive tinv_op where
  | op_invalidate (loc : map_location)
  | op_invalidate_all
  deriving DecidableEq

/-- Apply one tracker call to the dirty state. -/
def apply_inv_op (s : tdirty) : tinv_op → tdirty
  | .op_invalidate loc => (invalidate s loc).1
  | .op_invalidate_all => invalidate_all s

/-- Apply a whole sequence of tracker calls in submission order. -/
def apply_inv_ops (s : tdirty) (ops : List tinv_op) : tdirty :=
  ops.foldl apply_inv_op s

/-- The dirty state right after the post-draw clear: nothing is dirty. -/
def dirty_cleared : tdirty := ⟨false, []⟩

theorem invalidate_fst_covers (s : tdirty) (loc x : map_location) :
    dirty_covers (invalidate s loc).1 x ↔ dirty_covers s x ∨ x = loc := by
  unfold invalidate dirty_covers
  split
  · rename_i hall
    simp [hall]
  · rename_i hall
    split
    · rename_i hmem
      simp only [Bool.not_eq_true] at hall
      simp only [hall]
      constructor
      · exact fun h => Or.inl h
      · rintro (h | h)
        · exact h
        · exact Or.inr (h ▸ hmem)
    · simp only [Bool.not_eq_true] at hall
      simp [hall, List.mem_cons]
      tauto

theorem invalidate_snd_iff (s : tdirty) (loc : map_location) :
    (invalidate s loc).2 = true ↔ ¬ dirty_covers s loc := by
  unfold invalidate dirty_covers
  split
  · rename_i hall
    simp [hall]
  · rename_i hall
    simp only [Bool.not_eq_true] at hall
    split
    · rename_i hmem
      simp [hall, hmem]
    · rename_i hmem
      simp [hall, hmem]

theorem apply_inv_op_flag_mono (s : tdirty) (o : tinv_op)
    (h : s.invalidateAll_ = true) : (apply_inv_op s o).invalidateAll_ = true := by
  cases o with
  | op_invalidate loc =>
    unfold apply_inv_op invalidate
    simp [h]
  | op_invalidate_all => rfl

theorem apply_inv_ops_flag_mono (ops : List tinv_op) :
    ∀ s : tdirty, s.invalidateAll_ = true →
      (apply_inv_ops s ops).invalidateAll_ = true := by
  induction ops with
  | nil => intro s h; exact h
  | cons o rest ih =>
    intro s h
    exact ih (apply_inv_op s o) (apply_inv_op_flag_mono s o h)

theorem apply_inv_op_covers_mono (s : tdirty) (o : tinv_op) (x : map_location)
    (h : dirty_covers s x) : dirty_covers (apply_inv_op s o) x := by
  cases o with
  | op_invalidate loc =>
    exact (invalidate_fst_covers s loc x).2 (Or.inl h)
  | op_invalidate_all =>
    exact Or.inl rfl

theorem apply_inv_ops_covers (ops : List tinv_op) :
    ∀ s : tdirty, ∀ loc : map_location,
      (tinv_op.op_invalidate loc ∈ ops ∨ dirty_covers s loc) →
        dirty_covers (apply_inv_ops s ops) loc := by
  induction ops with
  | nil =>
    intro s loc h
    rcases h with h | h
    · cases h
    · exact h
  | cons o rest ih =>
    intro s loc h
    rcases h with h | h
    · rcases List.mem_cons.1 h with h | h
      · refine ih (apply_inv_op s o) loc (Or.inr ?_)
        rw [← h]
        exact (invalidate_fst_covers s loc loc).2 (Or.inr rfl)
      · exact ih (apply_inv_op s o) loc (Or.inl h)
    · exact ih (apply_inv_op s o) loc (Or.inr (apply_inv_op_covers_mono s o loc h))

/-- C3: the invalidation tracker is monotone: a second invalidate(loc) between
two clears leaves the state unchanged and reports no new work (idempotence);
after invalidate_all every individual invalidate is a no-op and the
everything-dirty flag survives any further tracker calls until the post-draw
clear; and the dirty state consumed at the next draw covers every distinct
location invalidated since the previous clear. -/
theorem invalidate_tracker_monotone :
    (∀ (s : tdirty) (loc : map_location),
      invalidate (invalidate s loc).1 loc = ((invalidate s loc).1, false)) ∧
    (∀ (s : tdirty) (loc : map_location),
      invalidate (invalidate_all s) loc = (invalidate_all s, false)) ∧
    (∀ (s : tdirty) (ops : List tinv_op),
      (apply_inv_ops (invalidate_all s) ops).invalidateAll_ = true) ∧
    (∀ (ops : List tinv_op) (loc : map_location),
      tinv_op.op_invalidate loc ∈ ops →
        dirty_covers (apply_inv_ops dirty_cleared ops) loc) := by
  refine ⟨?_, ?_, ?_, ?_⟩
  · intro s loc
    unfold invalidate
    split
    · rename_i hall
      simp [hall]
    · rename_i hall
      simp only [Bool.not_eq_true] at hall
      split
      · rename_i hmem
        simp [hall, hmem]
      · rename_i hmem
        simp [hall, List.mem_cons]
  · intro s loc
    unfold invalidate invalidate_all
    simp
  · intro s ops
    exact apply_inv_ops_flag_mono ops (invalidate_all s) rfl
  · intro ops loc h
    exact apply_inv_ops_covers ops dirty_cleared loc (Or.inl h)

/-- Witness for C3: double invalidation of hex (2,2) from the cleared state,
no-op invalidation after invalidate_all, flag survival across a further call,
and coverage of an invalidated location, all at concrete inputs. -/
theorem invalidate_tracker_monotone_witness :
    invalidate (invalidate dirty_cleared ⟨2, 2⟩).1 ⟨2, 2⟩ =
        ((invalidate dirty_cleared ⟨2, 2⟩).1, false) ∧
    dirty_covers
      (apply_inv_ops dirty_cleared [tinv_op.op_invalidate ⟨2, 2⟩]) ⟨2, 2⟩ :=
  ⟨invalidate_tracker_monotone.1 dirty_cleared ⟨2, 2⟩,
    invalidate_tracker_monotone.2.2.2 [tinv_op.op_invalidate ⟨2, 2⟩] ⟨2, 2⟩
      (by decide)⟩

theorem invalidate_locs_fst_covers (L : List map_location) :
    ∀ (s : tdirty) (x : map_location),
      dirty_covers (invalidate_locs s L).1 x ↔ dirty_covers s x ∨ x ∈ L := by
  induction L with
  | nil =>
    intro s x
    simp [invalidate_locs]
  | cons l rest ih =>
    intro s x
    unfold invalidate_locs
    rw [ih (invalidate s l).1 x, invalidate_fst_covers s l x, List.mem_cons]
    tauto

theorem invalidate_locs_snd_iff (L : List map_location) :
    ∀ s : tdirty,
      ((invalidate_locs s L).2 = true ↔ ∃ l ∈ L, ¬ dirty_covers s l) := by
  induction L with
  | nil =>
    intro s
    simp [invalidate_locs]
  | cons l rest ih =>
    intro s
    unfold invalidate_locs
    simp only [Bool.or_eq_true, invalidate_snd_iff s l, ih (invalidate s l).1,
      List.mem_cons]
    constructor
    · rintro (h | ⟨l', hl', hnc⟩)
      · exact ⟨l, Or.inl rfl, h⟩
      · refine ⟨l', Or.inr hl', fun hc => hnc ?_⟩
        exact (invalidate_fst_covers s l l').2 (Or.inl hc)
    · rintro ⟨l', hl' | hl', hnc⟩
      · exact Or.inl (hl' ▸ hnc)
      · by_cases hcl : dirty_covers s l'
        · exact absurd hcl hnc
        · by_cases hll : l' = l
          · exact Or.inl (hll ▸ hnc)
          · refine Or.inr ⟨l', hl', fun hc => ?_⟩
            rcases (invalidate_fst_covers s l l').1 hc with h | h
            · exact hnc h
            · exact hll h

/-- Modelled from the spec and the header comment on display.hpp lines
335-339: the body of display::propagate_invalidation is not part of the
sources; per the spec, if the given location set is partially invalidated
(some of its hexes are already in the dirty set), all its hexes are
invalidated, and the call returns whether any new invalidation was needed. -/
def propagate_invalidation (s : tdirty) (locs : List map_location) :
    tdirty × Bool :=
  if locs.any (fun l => decide (l ∈ s.invalidated_)) then invalidate_locs s locs
  else (s, false)

/-- Modelled from the spec: the body of display::update_arrow is not part of
the sources; per the spec, when an arrow path changes the display invalidates
both the hexes the arrow previously occupied and the hexes it now occupies,
so the transition renders atomically. -/
def update_arrow (s : tdirty) (old_hexes new_hexes : List map_location) :
    tdirty :=
  (invalidate_locs (invalidate_locs s old_hexes).1 new_hexes).1

/-- C5: propagate_invalidation, whenever the current dirty set partially
intersects the given location set, promotes the entire set to dirty and
returns whether new work was added; and updating an arrow that spanned
(3,3)-(3,4) to span (3,4)-(3,5), starting from a clean tracker, leaves
exactly the set containing (3,3), (3,4) and (3,5) dirty. -/
theorem update_arrow_invalidates :
    (∀ (s : tdirty) (locs : List map_location),
      (∃ l ∈ locs, l ∈ s.invalidated_) →
        (∀ l ∈ locs, dirty_covers (propagate_invalidation s locs).1 l) ∧
        ((propagate_invalidation s locs).2 = true ↔
          ∃ l ∈ locs, ¬ dirty_covers s l)) ∧
    (∀ l : map_location,
      dirty_covers (update_arrow dirty_cleared [⟨3, 3⟩, ⟨3, 4⟩] [⟨3, 4⟩, ⟨3, 5⟩]) l ↔
        (l = ⟨3, 3⟩ ∨ l = ⟨3, 4⟩ ∨ l = ⟨3, 5⟩)) := by
  constructor
  · intro s locs hinter
    have hany : locs.any (fun l => decide (l ∈ s.invalidated_)) = true := by
      rcases hinter with ⟨l, hl, hmem⟩
      simp only [List.any_eq_true, decide_eq_true_eq]
      exact ⟨l, hl, hmem⟩
    unfold propagate_invalidation
    rw [if_pos hany]
    constructor
    · intro l hl
      exact (invalidate_locs_fst_covers locs s l).2 (Or.inr hl)
    · exact invalidate_locs_snd_iff locs s
  · intro l
    unfold update_arrow
    rw [invalidate_locs_fst_covers, invalidate_locs_fst_covers]
    simp [dirty_covers, dirty_cleared]
    tauto

/-- Witness for C5: propagate_invalidation applied to a tracker in which hex
(3,4) is already dirty, with the set containing (3,4) and (3,5). -/
theorem update_arrow_invalidates_witness :
    ∀ l ∈ [(⟨3, 4⟩ : map_location), ⟨3, 5⟩],
      dirty_covers
        (propagate_invalidation ⟨false, [⟨3, 4⟩]⟩ [⟨3, 4⟩, ⟨3, 5⟩]).1 l :=
  (update_arrow_invalidates.1 ⟨false, [⟨3, 4⟩]⟩ [⟨3, 4⟩, ⟨3, 5⟩]
    ⟨⟨3, 4⟩, by decide, by decide⟩).1

/-- Static pixel geometry the viewport scrolls over: the full map size in
pixels and the size of the visible map viewport. -/
structure tscroll_cfg where
  map_pixel_w : Int
  map_pixel_h : Int
  view_w : Int
  view_h : Int
  deriving DecidableEq

/-- Viewport origin (xpos_, ypos_): pixel offset of the top-left visible
pixel relative to the full map. -/
structure tscroll_pos where
  xpos : Int
  ypos : Int
  deriving DecidableEq

/-- Modelled from the spec: the body of display::bounds_check_position is not
part of the sources; per the spec it clamps the origin so the visible
rectangle stays inside the map pixel bounds. -/
def bounds_check_position (cfg : tscroll_cfg) (x y : Int) : Int × Int :=
  (max 0 (min x (cfg.map_pixel_w - cfg.view_w)),
    max 0 (min y (cfg.map_pixel_h - cfg.view_h)))

/-- Modelled from the spec: the body of display::scroll is not part of the
sources; per the spec it applies the delta to the origin, clamps to the map
bounds, and returns whether the origin actually moved. -/
def scroll (cfg : tscroll_cfg) (p : tscroll_pos) (xmov ymov : Int) :
    tscroll_pos × Bool :=
  let q := bounds_check_position cfg (p.xpos + xmov) (p.ypos + ymov)
  (⟨q.1, q.2⟩, decide (¬ (q.1 = p.xpos ∧ q.2 = p.ypos)))

/-- The origin keeps the whole visible rectangle inside the map pixel
rectangle. -/
def origin_in_bounds (cfg : tscroll_cfg) (p : tscroll_pos) : Prop :=
  0 ≤ p.xpos ∧ p.xpos + cfg.view_w ≤ cfg.map_pixel_w ∧
  0 ≤ p.ypos ∧ p.ypos + cfg.view_h ≤ cfg.map_pixel_h

instance (cfg : tscroll_cfg) (p : tscroll_pos) :
    Decidable (origin_in_bounds cfg p) := by
  unfold origin_in_bounds
  infer_instance

/-- C6 counterexample: with a 1000x1000-pixel map and an 800x600 viewport at
origin (0,0), scroll(-10, 0) is clamped to (0,0), so the opposite scroll
(10, 0) lands at (10,0), not back at the start: the claimed universal
round-trip of opposite-direction scrolls fails. -/
theorem scroll_roundtrip_counterexample :
    (scroll ⟨1000, 1000, 800, 600⟩
      (scroll ⟨1000, 1000, 800, 600⟩ ⟨0, 0⟩ (-10) 0).1 10 0).1 ≠ ⟨0, 0⟩ := by
  decide

/-- C6 (amended): scroll clamps the viewport origin so the visible rectangle
never extends beyond the map pixel bounds, and returns true exactly when the
origin actually moved; and whenever the starting origin is within bounds and
the forward scroll is not clamped (the shifted origin is itself within
bounds), scroll(dx,dy) followed by scroll(-dx,-dy) returns the origin to its
starting value. -/
theorem scroll_clamps_and_reports :
    ∀ (cfg : tscroll_cfg) (p : tscroll_pos) (dx dy : Int),
      cfg.view_w ≤ cfg.map_pixel_w → cfg.view_h ≤ cfg.map_pixel_h →
        origin_in_bounds cfg (scroll cfg p dx dy).1 ∧
        ((scroll cfg p dx dy).2 = true ↔ (scroll cfg p dx dy).1 ≠ p) ∧
        (origin_in_bounds cfg p →
          origin_in_bounds cfg ⟨p.xpos + dx, p.ypos + dy⟩ →
            (scroll cfg (scroll cfg p dx dy).1 (-dx) (-dy)).1 = p) := by
  intro cfg p dx dy hw hh
  obtain ⟨mw, mh, vw, vh⟩ := cfg
  obtain ⟨px, py⟩ := p
  refine ⟨?_, ?_, ?_⟩
  · simp only [scroll, bounds_check_position, origin_in_bounds] at *
    omega
  · simp only [scroll, bounds_check_position, decide_eq_true_eq, ne_eq,
      tscroll_pos.mk.injEq]
  · intro hp hmoved
    simp only [scroll, bounds_check_position, origin_in_bounds] at *
    rw [tscroll_pos.mk.injEq]
    omega

/-- Witness for C6 (amended): the clamping, report and round-trip applied at
the concrete configuration of a 1000x1000 map, 800x600 view, origin (50,60)
and delta (30,-20). -/
theorem scroll_clamps_and_reports_witness :
    origin_in_bounds ⟨1000, 1000, 800, 600⟩
        (scroll ⟨1000, 1000, 800, 600⟩ ⟨50, 60⟩ 30 (-20)).1 ∧
      (scroll ⟨1000, 1000, 800, 600⟩
        (scroll ⟨1000, 1000, 800, 600⟩ ⟨50, 60⟩ 30 (-20)).1 (-30) 20).1 = ⟨50, 60⟩ := by
  have h := scroll_clamps_and_reports ⟨1000, 1000, 800, 600⟩ ⟨50, 60⟩ 30 (-20)
    (by decide) (by decide)
  exact ⟨h.1, h.2.2 (by decide) (by decide)⟩

/-- Modelled from the spec: the body of display::set_zoom is not part of the
sources; per the spec it adds the signed amount to the zoom factor and clamps
the result to the [min_zoom, max_zoom] bounds (out-of-range requests are
clamped, not rejected). -/
def set_zoom (min_zoom max_zoom zoom amount : Int) : Int :=
  let new_zoom := zoom + amount
  let new_zoom2 := if new_zoom < min_zoom then min_zoom else new_zoom
  if max_zoom < new_zoom2 then max_zoom else new_zoom2

/-- C7 counterexample: with bounds [48, 72] and current zoom 64, the signed
amount 1 yields zoom 65, which neither equals the previous zoom nor differs
from it by a multiple of 4: the claim fails for amounts that are not
multiples of 4. -/
theorem set_zoom_multiple_counterexample :
    ¬ (set_zoom 48 72 64 1 = 64 ∨ (4 : Int) ∣ (set_zoom 48 72 64 1 - 64)) := by
  decide

/-- C7 (amended): for every signed amount that is a multiple of 4, given that
min_zoom <= max_zoom and that min_zoom, max_zoom and the current zoom are
multiples of 4, the zoom factor after set_zoom either equals its previous
value or differs from it by a multiple of 4, and it always lies within
[min_zoom, max_zoom] (out-of-range requests are clamped, not rejected). -/
theorem set_zoom_quantized :
    ∀ min_zoom max_zoom zoom amount : Int,
      min_zoom ≤ max_zoom → 4 ∣ min_zoom → 4 ∣ max_zoom → 4 ∣ zoom →
        4 ∣ amount →
          min_zoom ≤ set_zoom min_zoom max_zoom zoom amount ∧
          set_zoom min_zoom max_zoom zoom amount ≤ max_zoom ∧
          (set_zoom min_zoom max_zoom zoom amount = zoom ∨
            4 ∣ (set_zoom min_zoom max_zoom zoom amount - zoom)) := by
  intro min_zoom max_zoom zoom amount hle hmin hmax hzoom hamount
  simp only [set_zoom]
  split_ifs <;> exact ⟨by omega, by omega, Or.inr (by omega)⟩

/-- Witness for C7 (amended): set_zoom applied with bounds [48, 72], current
zoom 64 and amount 8 (clamped to 72). -/
theorem set_zoom_quantized_witness :
    48 ≤ set_zoom 48 72 64 8 ∧ set_zoom 48 72 64 8 ≤ 72 ∧
      (set_zoom 48 72 64 8 = 64 ∨ (4 : Int) ∣ (set_zoom 48 72 64 8 - 64)) :=
  set_zoom_quantized 48 72 64 8 (by decide) (by decide) (by decide) (by decide)
    (by decide)

/-- Display state for the coordinate mapper: viewport origin (xpos_, ypos_),
zoom factor (zoom_, pixels per hex) and map size in hexes (map_w_, map_h_). -/
structure tdisplay where
  xpos_ : Int
  ypos_ : Int
  zoom_ : Int
  map_w_ : Int
  map_h_ : Int
  deriving DecidableEq

/-- Translated from display::hex_width (display.hpp line 217): the width of a
hex in pixels, up to where the next hex starts, is the zoom factor. -/
def hex_width (d : tdisplay) : Int := d.zoom_

/-- Translated from display::hex_size (display.hpp line 223): the size of a
hex in pixels, tip to tip, is the zoom factor. -/
def hex_size (d : tdisplay) : Int := d.zoom_

/-- Modelled from the spec: the body of display::get_location_x is not part
of the sources; per the spec the on-screen x of a hex derives from the hex
coordinate, the zoom and the viewport origin. -/
def get_location_x (d : tdisplay) (loc : map_location) : Int :=
  loc.x * hex_width d - d.xpos_

/-- Vertical shift of a column: odd columns sit half a hex lower (brick hex
layout); the parity test matches the (x)&1 idiom of display.hpp line 114. -/
def hex_shift (d : tdisplay) (x : Int) : Int :=
  if x % 2 = 1 then d.zoom_ / 2 else 0

/-- Modelled from the spec: the body of display::get_location_y is not part
of the sources; per the spec, odd columns shift vertically by half a hex
(brick hex layout). -/
def get_location_y (d : tdisplay) (loc : map_location) : Int :=
  loc.y * hex_size d + hex_shift d loc.x - d.ypos_

/-- Modelled from the spec: the body of display::pixel_screen_to_map is not
part of the sources; it converts a screen pixel to a map pixel by adding the
viewport origin. -/
def pixel_screen_to_map (d : tdisplay) (x y : Int) : Int × Int :=
  (x + d.xpos_, y + d.ypos_)

/-- Modelled from the spec: the body of display::pixel_position_to_hex is not
part of the sources; per the spec it is the approximate inverse of the
hex-to-pixel map, returning the invalid (null) location, never throwing, when
the map pixel lies outside every valid hex of the map. -/
def pixel_position_to_hex (d : tdisplay) (mx my : Int) : Option map_location :=
  let x := mx / d.zoom_
  let y := (my - hex_shift d x) / d.zoom_
  if 0 ≤ x ∧ x < d.map_w_ ∧ 0 ≤ y ∧ y < d.map_h_ then some ⟨x, y⟩ else none

theorem ediv_mul_add_half (z x c : Int) (hz : 0 < z) (hc0 : 0 ≤ c) (hc1 : c < z) :
    (x * z + c) / z = x := by
  rw [show x * z + c = c + z * x by ring,
    Int.add_mul_ediv_left c x (by omega : z ≠ 0),
    Int.ediv_eq_zero_of_lt hc0 hc1]
  ring

/-- C2: for every hex inside the map bounds and every zoom level in
{48, 56, 64, 72}, converting the hex to its on-screen pixel rectangle via
get_location_x / get_location_y and mapping the center pixel of that
rectangle back through pixel_position_to_hex yields the hex again. -/
theorem pixel_hex_roundtrip :
    ∀ (d : tdisplay) (loc : map_location),
      (d.zoom_ = 48 ∨ d.zoom_ = 56 ∨ d.zoom_ = 64 ∨ d.zoom_ = 72) →
      0 ≤ loc.x → loc.x < d.map_w_ → 0 ≤ loc.y → loc.y < d.map_h_ →
        pixel_position_to_hex d
          (pixel_screen_to_map d (get_location_x d loc + hex_width d / 2)
            (get_location_y d loc + hex_size d / 2)).1
          (pixel_screen_to_map d (get_location_x d loc + hex_width d / 2)
            (get_location_y d loc + hex_size d / 2)).2 = some loc := by
  intro d loc hz hx0 hx1 hy0 hy1
  have hzpos : 0 < d.zoom_ := by rcases hz with h | h | h | h <;> omega
  have hhalf0 : 0 ≤ d.zoom_ / 2 := by omega
  have hhalf1 : d.zoom_ / 2 < d.zoom_ := by omega
  simp only [pixel_screen_to_map, get_location_x, get_location_y, hex_width,
    hex_size, pixel_position_to_hex]
  have e1 : loc.x * d.zoom_ - d.xpos_ + d.zoom_ / 2 + d.xpos_ =
      loc.x * d.zoom_ + d.zoom_ / 2 := by ring
  rw [e1, ediv_mul_add_half d.zoom_ loc.x (d.zoom_ / 2) hzpos hhalf0 hhalf1]
  have e2 : loc.y * d.zoom_ + hex_shift d loc.x - d.ypos_ + d.zoom_ / 2 +
      d.ypos_ - hex_shift d loc.x = loc.y * d.zoom_ + d.zoom_ / 2 := by ring
  rw [e2, ediv_mul_add_half d.zoom_ loc.y (d.zoom_ / 2) hzpos hhalf0 hhalf1]
  rw [if_pos ⟨hx0, hx1, hy0, hy1⟩]

/-- Witness for C2: the round trip at zoom 64, viewport origin (100, 200),
a 50x50 map and hex (3, 2). -/
theorem pixel_hex_roundtrip_witness :
    pixel_position_to_hex ⟨100, 200, 64, 50, 50⟩
      (pixel_screen_to_map ⟨100, 200, 64, 50, 50⟩
        (get_location_x ⟨100, 200, 64, 50, 50⟩ ⟨3, 2⟩ +
          hex_width ⟨100, 200, 64, 50, 50⟩ / 2)
        (get_location_y ⟨100, 200, 64, 50, 50⟩ ⟨3, 2⟩ +
          hex_size ⟨100, 200, 64, 50, 50⟩ / 2)).1
      (pixel_screen_to_map ⟨100, 200, 64, 50, 50⟩
        (get_location_x ⟨100, 200, 64, 50, 50⟩ ⟨3, 2⟩ +
          hex_width ⟨100, 200, 64, 50, 50⟩ / 2)
        (get_location_y ⟨100, 200, 64, 50, 50⟩ ⟨3, 2⟩ +
          hex_size ⟨100, 200, 64, 50, 50⟩ / 2)).2 = some ⟨3, 2⟩ :=
  pixel_hex_roundtrip ⟨100, 200, 64, 50, 50⟩ ⟨3, 2⟩ (by decide) (by decide)
    (by decide) (by decide) (by decide)

/-- Integer screen-space rectangle, translated from SDL_Rect as used by the
display interface. -/
structure SDL_Rect where
  x : Int
  y : Int
  w : Int
  h : Int
  deriving DecidableEq

/-- The map-pixel bounding box of a hex: the pixel rectangle produced by
get_location_x / get_location_y (converted back to map coordinates by adding
the viewport origin) with hex_width x hex_size extent. -/
def hex_contains_pixel (d : tdisplay) (loc : map_location) (mx my : Int) : Prop :=
  get_location_x d loc + d.xpos_ ≤ mx ∧
  mx < get_location_x d loc + d.xpos_ + hex_width d ∧
  get_location_y d loc + d.ypos_ ≤ my ∧
  my < get_location_y d loc + d.ypos_ + hex_size d

/-- Modelled from the spec: the body of display::minimap_location_on is not
part of the sources; per the header comment it returns the location of the
hex in the minimap that the mouse is over, or an invalid location if the
mouse is not over the minimap area. -/
def minimap_location_on (d : tdisplay) (minimap_area : SDL_Rect) (px py : Int) :
    Option map_location :=
  if minimap_area.x ≤ px ∧ px < minimap_area.x + minimap_area.w ∧
      minimap_area.y ≤ py ∧ py < minimap_area.y + minimap_area.h then
    some ⟨(px - minimap_area.x) * d.map_w_ / minimap_area.w,
      (py - minimap_area.y) * d.map_h_ / minimap_area.h⟩
  else none

/-- C8: for every map pixel that lies outside every valid (in-bounds) hex,
pixel_position_to_hex returns the distinguished invalid/null location (the
none result of the total function, never an abort), and likewise
minimap_location_on returns the null location for any point off the minimap
area: the no-result case is reported only through this null return. -/
theorem invalid_coordinate_returns_null :
    (∀ (d : tdisplay) (mx my : Int), 0 < d.zoom_ →
      (∀ loc : map_location,
        0 ≤ loc.x → loc.x < d.map_w_ → 0 ≤ loc.y → loc.y < d.map_h_ →
          ¬ hex_contains_pixel d loc mx my) →
      pixel_position_to_hex d mx my = none) ∧
    (∀ (d : tdisplay) (r : SDL_Rect) (px py : Int),
      ¬ (r.x ≤ px ∧ px < r.x + r.w ∧ r.y ≤ py ∧ py < r.y + r.h) →
        minimap_location_on d r px py = none) := by
  constructor
  · intro d mx my hz hno
    have hznz : d.zoom_ ≠ 0 := by omega
    simp only [pixel_position_to_hex]
    split
    · rename_i hcond
      exfalso
      obtain ⟨hx0, hx1, hy0, hy1⟩ := hcond
      refine hno ⟨mx / d.zoom_,
        (my - hex_shift d (mx / d.zoom_)) / d.zoom_⟩ hx0 hx1 hy0 hy1 ?_
      have hdx := Int.ediv_add_emod mx d.zoom_
      have hdx0 := Int.emod_nonneg mx hznz
      have hdx1 := Int.emod_lt_of_pos mx hz
      have hdy := Int.ediv_add_emod (my - hex_shift d (mx / d.zoom_)) d.zoom_
      have hdy0 := Int.emod_nonneg (my - hex_shift d (mx / d.zoom_)) hznz
      have hdy1 := Int.emod_lt_of_pos (my - hex_shift d (mx / d.zoom_)) hz
      simp only [hex_contains_pixel, get_location_x, get_location_y,
        hex_width, hex_size]
      refine ⟨by linarith, by linarith, by linarith, by linarith⟩
    · rfl
  · intro d r px py hout
    unfold minimap_location_on
    rw [if_neg hout]

/-- Witness for C8: the map pixel (-1, 0) lies left of every hex of a 50x50
map at zoom 64, and pixel_position_to_hex returns none there; the point
(-5, 0) is off a minimap area at (700, 10) sized 80x80, and
minimap_location_on returns none there. -/
theorem invalid_coordinate_returns_null_witness :
    pixel_position_to_hex ⟨0, 0, 64, 50, 50⟩ (-1) 0 = none ∧
      minimap_location_on ⟨0, 0, 64, 50, 50⟩ ⟨700, 10, 80, 80⟩ (-5) 0 = none :=
  ⟨invalid_coordinate_returns_null.1 ⟨0, 0, 64, 50, 50⟩ (-1) 0 (by norm_num)
      (fun loc hx0 _ _ _ h => by
        have h1 := h.1
        simp only [get_location_x, hex_width] at h1
        omega),
    invalid_coordinate_returns_null.2 ⟨0, 0, 64, 50, 50⟩ ⟨700, 10, 80, 80⟩
      (-5) 0 (by decide)⟩

/-- Rectangular area of hexes, translated from struct rect_of_hexes
(display.hpp lines 66-71): left/right column bounds, and top/bottom row
bounds held separately for even and odd columns (the C++ top[2]/bottom[2]
arrays become the _even and _odd fields). -/
structure rect_of_hexes where
  left : Int
  right : Int
  top_even : Int
  top_odd : Int
  bottom_even : Int
  bottom_odd : Int
  deriving DecidableEq

/-- Selector for the C++ rect.top[(x)&1]. -/
def rect_of_hexes_top (rect : rect_of_hexes) (x : Int) : Int :=
  if x % 2 = 1 then rect.top_odd else rect.top_even

/-- Selector for the C++ rect.bottom[(x)&1]. -/
def rect_of_hexes_bottom (rect : rect_of_hexes) (x : Int) : Int :=
  if x % 2 = 1 then rect.bottom_odd else rect.bottom_even

/-- Translated from the point_in_rect_of_hexes macro (display.hpp lines
113-114): (x) >= rect.left and (y) >= rect.top[(x)&1] and (x) <= rect.right
and (y) <= rect.bottom[(x)&1]. -/
def point_in_rect_of_hexes (x y : Int) (rect : rect_of_hexes) : Prop :=
  rect.left ≤ x ∧ rect_of_hexes_top rect x ≤ y ∧ x ≤ rect.right ∧
    y ≤ rect_of_hexes_bottom rect x

instance (x y : Int) (rect : rect_of_hexes) :
    Decidable (point_in_rect_of_hexes x y rect) := by
  unfold point_in_rect_of_hexes
  infer_instance

/-- Modelled from the spec: the body of display::hexes_under_rect is not part
of the sources; per the spec it returns the rectangular range of hexes
overlapped by the screen rectangle r, with per-parity top/bottom bounds
because odd and even columns are vertically offset by half a hex. -/
def hexes_under_rect (d : tdisplay) (r : SDL_Rect) : rect_of_hexes :=
  let a := r.x + d.xpos_
  let b := r.y + d.ypos_
  { left := a / d.zoom_
    right := (a + r.w - 1) / d.zoom_
    top_even := b / d.zoom_
    top_odd := (b - d.zoom_ / 2) / d.zoom_
    bottom_even := (b + r.h - 1) / d.zoom_
    bottom_odd := (b + r.h - 1 - d.zoom_ / 2) / d.zoom_ }

/-- The on-screen pixel bounding box of a hex. -/
def hex_rect (d : tdisplay) (loc : map_location) : SDL_Rect :=
  ⟨get_location_x d loc, get_location_y d loc, hex_width d, hex_size d⟩

/-- Two pixel rectangles overlap (intersect with nonzero area). -/
def rects_overlap (r1 r2 : SDL_Rect) : Prop :=
  r1.x < r2.x + r2.w ∧ r2.x < r1.x + r1.w ∧ r1.y < r2.y + r2.h ∧ r2.y < r1.y + r1.h

instance (r1 r2 : SDL_Rect) : Decidable (rects_overlap r1 r2) := by
  unfold rects_overlap
  infer_instance

theorem rect_top_eq (d : tdisplay) (r : SDL_Rect) (x : Int) :
    rect_of_hexes_top (hexes_under_rect d r) x =
      (r.y + d.ypos_ - hex_shift d x) / d.zoom_ := by
  unfold rect_of_hexes_top hexes_under_rect hex_shift
  by_cases hodd : x % 2 = 1 <;> simp [hodd]

theorem rect_bottom_eq (d : tdisplay) (r : SDL_Rect) (x : Int) :
    rect_of_hexes_bottom (hexes_under_rect d r) x =
      (r.y + d.ypos_ + r.h - 1 - hex_shift d x) / d.zoom_ := by
  unfold rect_of_hexes_bottom hexes_under_rect hex_shift
  by_cases hodd : x % 2 = 1 <;> simp [hodd]

/-- C4: for every screen rectangle with positive extent and every hex, the
hex is inside the rect_of_hexes returned by hexes_under_rect exactly when its
pixel bounding box overlaps the rectangle: in particular the returned range
has no false negatives (every hex whose bounding box intersects r is
contained), and every hex of the returned range maps back to a pixel
rectangle intersecting r. -/
theorem hexes_under_rect_covers :
    ∀ (d : tdisplay) (r : SDL_Rect) (loc : map_location),
      0 < d.zoom_ → 0 < r.w → 0 < r.h →
        (rects_overlap (hex_rect d loc) r ↔
          point_in_rect_of_hexes loc.x loc.y (hexes_under_rect d r)) := by
  intro d r loc hz hw hh
  unfold rects_overlap hex_rect point_in_rect_of_hexes
  rw [rect_top_eq, rect_bottom_eq]
  simp only [get_location_x, get_location_y, hex_width, hex_size]
  have hL : (hexes_under_rect d r).left = (r.x + d.xpos_) / d.zoom_ := rfl
  have hR : (hexes_under_rect d r).right = (r.x + d.xpos_ + r.w - 1) / d.zoom_ := rfl
  rw [hL, hR]
  have h1 : (r.x + d.xpos_) / d.zoom_ ≤ loc.x ↔
      r.x + d.xpos_ < (loc.x + 1) * d.zoom_ := by
    rw [← Int.lt_add_one_iff, Int.ediv_lt_iff_lt_mul hz]
  have h2 : loc.x ≤ (r.x + d.xpos_ + r.w - 1) / d.zoom_ ↔
      loc.x * d.zoom_ ≤ r.x + d.xpos_ + r.w - 1 :=
    Int.le_ediv_iff_mul_le hz
  have h3 : (r.y + d.ypos_ - hex_shift d loc.x) / d.zoom_ ≤ loc.y ↔
      r.y + d.ypos_ - hex_shift d loc.x < (loc.y + 1) * d.zoom_ := by
    rw [← Int.lt_add_one_iff, Int.ediv_lt_iff_lt_mul hz]
  have h4 : loc.y ≤ (r.y + d.ypos_ + r.h - 1 - hex_shift d loc.x) / d.zoom_ ↔
      loc.y * d.zoom_ ≤ r.y + d.ypos_ + r.h - 1 - hex_shift d loc.x :=
    Int.le_ediv_iff_mul_le hz
  rw [h1, h2, h3, h4]
  have e1 : (loc.x + 1) * d.zoom_ = loc.x * d.zoom_ + d.zoom_ := by ring
  have e2 : (loc.y + 1) * d.zoom_ = loc.y * d.zoom_ + d.zoom_ := by ring
  rw [e1, e2]
  constructor
  · rintro ⟨o1, o2, o3, o4⟩
    exact ⟨by linarith, by linarith, by linarith, by linarith⟩
  · rintro ⟨m1, m2, m3, m4⟩
    exact ⟨by linarith, by linarith, by linarith, by linarith⟩

/-- Witness for C4: the claimed scenario instance: the screen rectangle
(0,0,800,600) at zoom 64 over a 50x50 map, with hex (3,2) (whose bounding
box intersects the rectangle, and which the returned range contains). -/
theorem hexes_under_rect_covers_witness :
    (rects_overlap (hex_rect ⟨0, 0, 64, 50, 50⟩ ⟨3, 2⟩) ⟨0, 0, 800, 600⟩ ↔
      point_in_rect_of_hexes 3 2
        (hexes_under_rect ⟨0, 0, 64, 50, 50⟩ ⟨0, 0, 800, 600⟩)) ∧
    rects_overlap (hex_rect ⟨0, 0, 64, 50, 50⟩ ⟨3, 2⟩) ⟨0, 0, 800, 600⟩ :=
  ⟨hexes_under_rect_covers ⟨0, 0, 64, 50, 50⟩ ⟨0, 0, 800, 600⟩ ⟨3, 2⟩
      (by decide) (by decide) (by decide),
    by decide⟩

/-- tdrawing_layer value LAYER_TERRAIN_BG from the enum at display.hpp lines
713-759 (terrain drawn behind the unit). -/
def LAYER_TERRAIN_BG : Nat := 0

/-- tdrawing_layer value LAYER_UNIT_FIRST (display.hpp line 722). -/
def LAYER_UNIT_FIRST : Nat := 5

/-- tdrawing_layer value LAYER_UNIT_MOVE_DEFAULT = LAYER_UNIT_FIRST + 60
(display.hpp line 733). -/
def LAYER_UNIT_MOVE_DEFAULT : Nat := 65

/-- tdrawing_layer value LAYER_REACHMAP (display.hpp line 744, after
LAYER_UNIT_BAR = LAYER_UNIT_FIRST + 110). -/
def LAYER_REACHMAP : Nat := 116

/-- tdrawing_layer value LAYER_ARROWS (display.hpp line 747). -/
def LAYER_ARROWS : Nat := 119

/-- Modelled from the spec: the drawing_buffer_key::layer_groups table is
declared at display.hpp line 824 but its values are not part of the sources;
per the spec the layers are partitioned into four ordered groups (background
terrain, unit figures, foreground terrain/overlay, UI chrome), each entry
being the first layer of its group. -/
def layer_groups : List Nat :=
  [LAYER_TERRAIN_BG, LAYER_UNIT_FIRST, LAYER_UNIT_MOVE_DEFAULT, LAYER_REACHMAP]

/-- The layer group of a layer: the index of the last group whose first layer
does not exceed it (the backwards search of the drawing_buffer_key
constructor). -/
def layer_group (layer : Nat) : Nat :=
  (layer_groups.filter (fun g => g ≤ layer)).length - 1

/-- Helper structure for rendering the terrains, translated from class tblit
(display.hpp lines 834-870): layer and hex location (the sort key inputs),
screen coordinates, the surfaces to render and the optional clip rect. -/
structure tblit where
  layer : Nat
  loc : map_location
  x : Int
  y : Int
  surf : List Nat
  clip : Option SDL_Rect
  deriving DecidableEq

/-- Modelled from the spec and the header comment at display.hpp lines
792-818: the drawing_buffer_key constructor body is not part of the sources;
per the header comment the order is, most significant first: layer group,
then row (top of screen first), then layer within the group, then column. -/
def drawing_buffer_key (loc : map_location) (layer : Nat) : Nat × Int × Nat × Int :=
  (layer_group layer, loc.y, layer, loc.x)

/-- The ordering key of a buffered blit: a pure function of its (loc, layer)
fields only. -/
def dbkey (b : tblit) : Nat × Int × Nat × Int :=
  drawing_buffer_key b.loc b.layer

/-- Lexicographic comparison of drawing-buffer keys (the key_ < rhs.key_ of
display.hpp line 830, on the unpacked tuple). -/
def dbkey_le (k1 k2 : Nat × Int × Nat × Int) : Prop :=
  k1.1 < k2.1 ∨ (k1.1 = k2.1 ∧ (k1.2.1 < k2.2.1 ∨ (k1.2.1 = k2.2.1 ∧
    (k1.2.2.1 < k2.2.2.1 ∨ (k1.2.2.1 = k2.2.2.1 ∧ k1.2.2.2 ≤ k2.2.2.2)))))

/-- The tblit::operator< comparison (display.hpp line 858), as a non-strict
total preorder used by the stable sort. -/
def blit_le (a b : tblit) : Prop := dbkey_le (dbkey a) (dbkey b)

instance : DecidableRel blit_le := fun a b => by
  unfold blit_le dbkey_le
  infer_instance

instance : IsTotal tblit blit_le := by
  constructor
  intro a b
  unfold blit_le dbkey_le
  omega

instance : IsTrans tblit blit_le := by
  constructor
  intro a b c
  unfold blit_le dbkey_le
  omega

/-- Translated from display::drawing_buffer_add: appends one item to the
frame drawing buffer, in submission order. -/
def drawing_buffer_add (buf : List tblit) (b : tblit) : List tblit := buf ++ [b]

/-- Modelled from the spec: the body of display::drawing_buffer_commit is not
part of the sources; per the spec it sorts the accumulated items by their
ordering key with a stable sort (insertion order preserved on equal keys) and
blits them in that order, then clears the buffer.  The returned list is the
paint order. -/
def drawing_buffer_commit (buf : List tblit) : List tblit :=
  List.insertionSort blit_le buf

theorem blit_le_of_key_eq {a c : tblit} (h : dbkey a = dbkey c) : blit_le a c := by
  unfold blit_le
  rw [h]
  unfold dbkey_le
  omega

theorem filter_orderedInsert_key (k : Nat × Int × Nat × Int) (a : tblit) :
    ∀ l : List tblit,
      (List.orderedInsert blit_le a l).filter (fun b => decide (dbkey b = k)) =
        if dbkey a = k then a :: l.filter (fun b => decide (dbkey b = k))
        else l.filter (fun b => decide (dbkey b = k)) := by
  intro l
  induction l with
  | nil =>
    by_cases hk : dbkey a = k <;> simp [List.orderedInsert, List.filter, hk]
  | cons c cs ih =>
    simp only [List.orderedInsert]
    by_cases hle : blit_le a c
    · rw [if_pos hle]
      by_cases hk : dbkey a = k <;> simp [List.filter_cons, hk]
    · rw [if_neg hle]
      have hck : dbkey c ≠ dbkey a := fun he => hle (blit_le_of_key_eq he.symm)
      by_cases hk : dbkey a = k
      · have hcknek : ¬ (dbkey c = k) := fun he => hck (he.trans hk.symm)
        simp [List.filter_cons, hk, hcknek, ih]
      · by_cases hckk : dbkey c = k <;> simp [List.filter_cons, hk, hckk, ih]

theorem filter_commit_key (k : Nat × Int × Nat × Int) :
    ∀ buf : List tblit,
      (drawing_buffer_commit buf).filter (fun b => decide (dbkey b = k)) =
        buf.filter (fun b => decide (dbkey b = k)) := by
  intro buf
  induction buf with
  | nil => rfl
  | cons a l ih =>
    unfold drawing_buffer_commit at *
    simp only [List.insertionSort]
    rw [filter_orderedInsert_key k a (List.insertionSort blit_le l)]
    by_cases hk : dbkey a = k <;> simp [List.filter_cons, hk, ih]

/-- C1 (amended): drawing_buffer_commit blits the accumulated items of a
frame in ascending order of a key that is a pure function of (layer, loc)
alone, ordering items first by layer group, then by the row of loc (top of
screen first), then by fine-grained layer within the group, then by column;
items with equal keys are blitted in insertion (submission) order, so the
resulting paint order is deterministic for a fixed submission sequence: the
committed order is a permutation of the buffer, sorted by the key, with the
items of each key class kept in buffer order. -/
theorem drawing_buffer_commit_ordered :
    ∀ buf : List tblit,
      List.Perm (drawing_buffer_commit buf) buf ∧
      List.Sorted blit_le (drawing_buffer_commit buf) ∧
      (∀ k, (drawing_buffer_commit buf).filter (fun b => decide (dbkey b = k)) =
        buf.filter (fun b => decide (dbkey b = k))) ∧
      (∀ b1 b2 : tblit, b1.layer = b2.layer → b1.loc = b2.loc →
        dbkey b1 = dbkey b2) :=
  fun buf =>
    ⟨List.perm_insertionSort blit_le buf,
      List.sorted_insertionSort blit_le buf,
      fun k => filter_commit_key k buf,
      fun b1 b2 h1 h2 => by simp [dbkey, drawing_buffer_key, h1, h2]⟩

/-- The ordering key exactly as claim C1 words it: first the row of loc, then
the layer group, then the fine-grained layer, then the column. -/
def spec_row_first_key (loc : map_location) (layer : Nat) : Int × Nat × Nat × Int :=
  (loc.y, layer_group layer, layer, loc.x)

/-- Strict lexicographic order on row-first keys. -/
def spec_row_first_lt (k1 k2 : Int × Nat × Nat × Int) : Prop :=
  k1.1 < k2.1 ∨ (k1.1 = k2.1 ∧ (k1.2.1 < k2.2.1 ∨ (k1.2.1 = k2.2.1 ∧
    (k1.2.2.1 < k2.2.2.1 ∨ (k1.2.2.1 = k2.2.2.1 ∧ k1.2.2.2 < k2.2.2.2)))))

instance (k1 k2 : Int × Nat × Nat × Int) : Decidable (spec_row_first_lt k1 k2) := by
  unfold spec_row_first_lt
  infer_instance

/-- An arrows-layer item on visual row 0. -/
def blit_arrow_example : tblit := ⟨LAYER_ARROWS, ⟨0, 0⟩, 0, 0, [0], none⟩

/-- A background-terrain item on row 1. -/
def blit_terrain_example : tblit := ⟨LAYER_TERRAIN_BG, ⟨0, 1⟩, 0, 0, [1], none⟩

/-- C1 counterexample: under the claimed row-first key the arrows item on row
0 strictly precedes the terrain item on row 1, yet drawing_buffer_commit
blits the terrain item first, because the layer group is the most significant
sort criterion (header comment, display.hpp lines 800-810), not the row. -/
theorem drawing_buffer_commit_row_first_counterexample :
    spec_row_first_lt
      (spec_row_first_key blit_arrow_example.loc blit_arrow_example.layer)
      (spec_row_first_key blit_terrain_example.loc blit_terrain_example.layer) ∧
    drawing_buffer_commit [blit_arrow_example, blit_terrain_example] =
      [blit_terrain_example, blit_arrow_example] := by
  constructor
  · decide
  · decide

/-- Witness for C1 (amended): the ordering theorem applied to a concrete
one-item buffer, and key purity applied to two concrete blits that share
(layer, loc) but differ in screen offset and payload. -/
theorem drawing_buffer_commit_ordered_witness :
    List.Perm (drawing_buffer_commit [(⟨0, ⟨0, 0⟩, 0, 0, [0], none⟩ : tblit)])
        [(⟨0, ⟨0, 0⟩, 0, 0, [0], none⟩ : tblit)] ∧
      dbkey ⟨0, ⟨1, 1⟩, 0, 0, [0], none⟩ = dbkey ⟨0, ⟨1, 1⟩, 5, 7, [1], none⟩ :=
  ⟨(drawing_buffer_commit_ordered [⟨0, ⟨0, 0⟩, 0, 0, [0], none⟩]).1,
    (drawing_buffer_commit_ordered []).2.2.2 ⟨0, ⟨1, 1⟩, 0, 0, [0], none⟩
      ⟨0, ⟨1, 1⟩, 5, 7, [1], none⟩ rfl rfl⟩
